import Mathlib

set_option maxHeartbeats 1000000

/-!
A shallow embedding of `gemini_pipeline.py`: a batch pipeline that matches
PDF/HTML documents to BibTeX citation keys, asks a generative service for a
summary of each document, appends the summaries to an output file and
archives the processed documents.  Python strings are modelled as `List Char`,
the external world (filesystem, environment variable, remote service) as an
explicit `Env` record, and the observable behaviour of a run as a list of
events plus the process exit status.
-/

namespace Pipeline

/-- Python `str.split(sep)` for a single-character separator: split at every
occurrence of the separator, keeping empty pieces. -/
def splitOnChar (c : Char) : List Char → List (List Char)
  | [] => [[]]
  | x :: xs =>
    if x = c then [] :: splitOnChar c xs
    else
      match splitOnChar c xs with
      | [] => [[x]]
      | r :: rs => (x :: r) :: rs

/-- Python `str.lower`, character-wise. -/
def strToLower (s : List Char) : List Char := s.map Char.toLower

/-- Python `str.startswith` on character lists (used to build the other
string predicates). -/
def listStartsWith : List Char → List Char → Bool
  | [], _ => true
  | _ :: _, [] => false
  | p :: ps, x :: xs => if p = x then listStartsWith ps xs else false

/-- Python `str.endswith(suffix)` on character lists. -/
def listEndsWith (suf s : List Char) : Bool := listStartsWith suf.reverse s.reverse

/-- Python `sub in s` substring containment on character lists. -/
def containsSub (sub : List Char) : List Char → Bool
  | [] => listStartsWith sub []
  | x :: xs => listStartsWith sub (x :: xs) || containsSub sub xs

/-- Index of the last occurrence of `c` in `s` (Python `str.rfind`): `-1`
when absent. -/
def lastIdxAux (c : Char) : List Char → Int → Int → Int
  | [], _, acc => acc
  | x :: xs, i, acc => lastIdxAux c xs (i + 1) (if x = c then i else acc)

/-- Python `str.rfind(c)`. -/
def lastIdx (c : Char) (s : List Char) : Int := lastIdxAux c s 0 (-1)

/-- Model of `os.path.basename` (POSIX): everything after the last slash. -/
def basename (p : List Char) : List Char := p.drop ((lastIdx '/' p) + 1).toNat

/-- The root part of `os.path.splitext` (POSIX): cut at the last dot of the
final path component, unless every character of that component before the
dot is itself a dot. -/
def splitext_stem (p : List Char) : List Char :=
  let sepIdx := lastIdx '/' p
  let dotIdx := lastIdx '.' p
  if sepIdx < dotIdx then
    let st := (sepIdx + 1).toNat
    let dn := dotIdx.toNat
    if ((p.drop st).take (dn - st)).any (fun ch => ch != '.') then p.take dn
    else p
  else p

/-- The inner test of `parse_file_path_from_entry`: does this `:`-segment name
a `.pdf` or `.html` file (`segment.lower().endswith(('.pdf', '.html'))`)? -/
def segIsFile (seg : List Char) : Bool :=
  listEndsWith ".pdf".toList (strToLower seg) || listEndsWith ".html".toList (strToLower seg)

/-- The outer test of `parse_file_path_from_entry`: does this `;`-part mention
a PDF or HTML file (`'.pdf' in part.lower() or '.html' in part.lower()`)? -/
def partQualifies (part : List Char) : Bool :=
  containsSub ".pdf".toList (strToLower part) || containsSub ".html".toList (strToLower part)

/-- Model of `parse_file_path_from_entry`: parse the file path out of a
Zotero/Mendeley-style `file` field.  Split on `;`; in the first part whose
lowercase form contains `.pdf` or `.html`, split on `:` and return the last
segment that ends (case-insensitively) in `.pdf` or `.html`. -/
def parse_file_path_from_entry (file_field_string : List Char) : Option (List Char) :=
  if file_field_string = [] then none
  else
    (splitOnChar ';' file_field_string).findSome? fun part =>
      if partQualifies part then (splitOnChar ':' part).reverse.find? segIsFile
      else none

/-- Python `dict` insertion: replace the value of an existing key in place,
otherwise append the new pair. -/
def dictInsert : List (List Char × List Char) → List Char → List Char → List (List Char × List Char)
  | [], k, v => [(k, v)]
  | kv :: rest, k, v => if kv.1 = k then (k, v) :: rest else kv :: dictInsert rest k v

/-- Python `dict.get` (without default). -/
def dictGet? : List (List Char × List Char) → List Char → Option (List Char)
  | [], _ => none
  | kv :: rest, k => if kv.1 = k then some kv.2 else dictGet? rest k

/-- A parsed bibliography entry as seen by the script: `entry.get('ID')` and
`entry.get('file')`, each possibly absent. -/
structure BibEntry where
  ID : Option (List Char)
  file : Option (List Char)

/-- One iteration of the loop in `create_pdf_to_citekey_map`: skip entries
whose citekey or file field is falsy, otherwise resolve the file path and
record `basename → citekey` (overwriting any previous value). -/
def stepEntry (mapping : List (List Char × List Char)) (entry : BibEntry) :
    List (List Char × List Char) :=
  match entry.ID, entry.file with
  | some citekey, some file_field =>
    if citekey = [] ∨ file_field = [] then mapping
    else
      match parse_file_path_from_entry file_field with
      | none => mapping
      | some pdf_path => dictInsert mapping (basename pdf_path) citekey
  | _, _ => mapping

/-- Model of `create_pdf_to_citekey_map`: fold the entries in order into the
filename-to-citekey dictionary. -/
def create_pdf_to_citekey_map (entries : List BibEntry) : List (List Char × List Char) :=
  entries.foldl stepEntry []

/-- A remote file handle returned by `genai.upload_file` (`.name` is used for
deletion, `.uri` only for display). -/
structure Handle where
  name : List Char
  uri : List Char
deriving DecidableEq

/-- One element of the `prompt_parts` list passed to
`model.generate_content`: either literal prompt text or an uploaded-file
handle. -/
inductive ReqPart where
  | text (s : List Char)
  | fileRef (h : Handle)
deriving DecidableEq

/-- The outcome the external service/filesystem produces for each step of one
document: `Except.error msg` models a raised exception with message `msg`. -/
structure DocBehavior where
  uploadRes : Except (List Char) Handle
  generateRes : Except (List Char) (List Char)
  persistRes : Except (List Char) Unit
  archiveRes : Except (List Char) Unit
  deleteRes : Except (List Char) Unit

/-- Observable events of a run, in program order: configuration, diagnostics,
remote calls, output-sink writes and file moves. -/
inductive Event where
  | configuredKey
  | configuredKeyFile
  | errNoApiKey
  | dirsSetup
  | loadedPrompt
  | errNoPrompt
  | loadedBib
  | errNoBib
  | errBibParse (msg : List Char)
  | warnedEmptyIndex
  | attachMissing
  | uploadedAttachment (h : Handle)
  | attachUploadFailed (msg : List Char)
  | errNoPapersDir
  | noNewPapers
  | foundFiles (files : List (List Char))
  | procStart (file : List Char)
  | foundCitekey (key : List Char)
  | warnedFallback (file : List Char)
  | uploadedDoc (h : Handle)
  | generated (payload : List ReqPart)
  | appendedSummary (key : List Char) (text : List Char)
  | archived (file : List Char)
  | deletedRemoteDoc (hname : List Char)
  | docError (file : List Char) (msg : List Char)
  | deletedAttachment (hname : List Char)
  | finished
deriving DecidableEq

/-- The external world a run executes against: the `GEMINI_API_KEY`
environment variable, the contents of the prompt file and the bibliography
(absent / parse failure / entries), whether the optional siunitx manual
exists and how its upload goes, the listing of the input directory (absent
when the directory is missing), and the per-document step outcomes. -/
structure Env where
  gemini_api_key : Option (List Char)
  master_prompt_file : Option (List Char)
  bibtex_file : Option (Except (List Char) (List BibEntry))
  siunitx_exists : Bool
  siunitx_upload : Except (List Char) Handle
  papers_listing : Option (List (List Char))
  docBeh : List Char → DocBehavior

/-- Python falsiness of an optional string (`None` and `""` are falsy). -/
def isFalsy : Option (List Char) → Bool
  | none => true
  | some s => s.isEmpty

/-- The directory-scan filter: `f.lower().endswith(('.pdf', '.html'))`. -/
def isEligible (f : List Char) : Bool :=
  listEndsWith ".pdf".toList (strToLower f) || listEndsWith ".html".toList (strToLower f)

/-- The optional-reference-manual phase: if the manual exists locally, try to
upload it (a failed upload degrades to no attachment); otherwise proceed
without it.  Returns the emitted events and `siunitx_manual_file`. -/
def attachPhase (env : Env) : List Event × Option Handle :=
  if env.siunitx_exists then
    match env.siunitx_upload with
    | Except.ok h => ([Event.uploadedAttachment h], some h)
    | Except.error msg => ([Event.attachUploadFailed msg], none)
  else ([Event.attachMissing], none)

/-- The optional middle element of `prompt_parts`. -/
def attachPartList : Option Handle → List ReqPart
  | some a => [ReqPart.fileRef a]
  | none => []

/-- The `prompt_parts` list: prompt text, then the optional shared
attachment, then this document's handle. -/
def payloadParts (master_prompt : List Char) (attach : Option Handle) (h : Handle) : List ReqPart :=
  ReqPart.text master_prompt :: (attachPartList attach ++ [ReqPart.fileRef h])

/-- Model of `pdf_citekey_map.get(pdf_file, os.path.splitext(pdf_file)[0])`. -/
def resolve_citekey (m : List (List Char × List Char)) (pdf_file : List Char) : List Char :=
  (dictGet? m pdf_file).getD (splitext_stem pdf_file)

/-- The citekey report: the fallback warning fires exactly when the resolved
key equals the filename stem (this is how the script detects the fallback). -/
def keyEvents (m : List (List Char × List Char)) (pdf_file : List Char) : List Event :=
  if resolve_citekey m pdf_file = splitext_stem pdf_file then [Event.warnedFallback pdf_file]
  else [Event.foundCitekey (resolve_citekey m pdf_file)]

/-- One iteration of the per-document loop: resolve the citekey, then run
upload → generate → persist → archive → remote delete inside the
`try`/`except`; the first raised step produces a `docError` event and ends
this document's processing. -/
def docEvents (master_prompt : List Char) (attach : Option Handle)
    (m : List (List Char × List Char)) (b : DocBehavior) (pdf_file : List Char) : List Event :=
  Event.procStart pdf_file ::
    (keyEvents m pdf_file ++
      match b.uploadRes with
      | Except.error msg => [Event.docError pdf_file msg]
      | Except.ok h =>
        Event.uploadedDoc h ::
          Event.generated (payloadParts master_prompt attach h) ::
            match b.generateRes with
            | Except.error msg => [Event.docError pdf_file msg]
            | Except.ok txt =>
              match b.persistRes with
              | Except.error msg => [Event.docError pdf_file msg]
              | Except.ok _ =>
                Event.appendedSummary (resolve_citekey m pdf_file) txt ::
                  match b.archiveRes with
                  | Except.error msg => [Event.docError pdf_file msg]
                  | Except.ok _ =>
                    Event.archived pdf_file ::
                      match b.deleteRes with
                      | Except.error msg => [Event.docError pdf_file msg]
                      | Except.ok _ => [Event.deletedRemoteDoc h.name])

/-- Sequential concatenation of per-element event lists (the `for` loop). -/
def concatMap {α β : Type} (g : α → List β) : List α → List β
  | [] => []
  | x :: xs => g x ++ concatMap g xs

/-- The end-of-run cleanup: delete the shared attachment's remote handle if
one was uploaded. -/
def attachCleanup : Option Handle → List Event
  | some h => [Event.deletedAttachment h.name]
  | none => []

/-- The body of `main()` as an event trace: load prompt and bibliography
(each missing/unparseable input returns early with a diagnostic), run the
attachment phase, scan the input directory, and either return early (missing
directory, or no eligible files) or process every eligible file and then
clean up the attachment. -/
def main_events (env : Env) : List Event :=
  Event.dirsSetup ::
    match env.master_prompt_file with
    | none => [Event.errNoPrompt]
    | some master_prompt =>
      Event.loadedPrompt ::
        match env.bibtex_file with
        | none => [Event.errNoBib]
        | some (Except.error msg) => [Event.errBibParse msg]
        | some (Except.ok entries) =>
          Event.loadedBib ::
            ((if create_pdf_to_citekey_map entries = [] then [Event.warnedEmptyIndex] else []) ++
              ((attachPhase env).1 ++
                match env.papers_listing with
                | none => [Event.errNoPapersDir]
                | some listing =>
                  if listing.filter isEligible = [] then [Event.noNewPapers]
                  else
                    Event.foundFiles (listing.filter isEligible) ::
                      (concatMap
                          (fun f => docEvents master_prompt (attachPhase env).2
                            (create_pdf_to_citekey_map entries) (env.docBeh f) f)
                          (listing.filter isEligible) ++
                        (attachCleanup (attachPhase env).2 ++ [Event.finished]))))

/-- The inline API-key fallback constant; in the shipped script it still holds
the sentinel value, so the inline branch is dead. -/
def API_KEY_PLACEHOLDER : List Char := "PASTE_YOUR_GEMINI_API_KEY_HERE".toList

/-- The whole process: the module-level credential check (which is the only
place that calls `sys.exit(1)`), then `main()`.  Returns the event trace and
the process exit status. -/
def run_program (env : Env) : List Event × Nat :=
  if isFalsy env.gemini_api_key = false then (Event.configuredKey :: main_events env, 0)
  else if API_KEY_PLACEHOLDER ≠ "PASTE_YOUR_GEMINI_API_KEY_HERE".toList then
    (Event.configuredKeyFile :: main_events env, 0)
  else ([Event.errNoApiKey], 1)

/-- Recogniser for per-document start events. -/
def isProcStart : Event → Bool
  | Event.procStart _ => true
  | _ => false

/-- Recogniser for output-sink writes. -/
def isAppendSummary : Event → Bool
  | Event.appendedSummary _ _ => true
  | _ => false

/-- Recogniser for the end-of-run attachment delete. -/
def isAttachDelete : Event → Bool
  | Event.deletedAttachment _ => true
  | _ => false

/-- Does this `Except` hold a success? -/
def exceptIsOk {ε α : Type} : Except ε α → Bool
  | Except.ok _ => true
  | Except.error _ => false

/-- All five steps of a document succeed. -/
def docOk (b : DocBehavior) : Bool :=
  exceptIsOk b.uploadRes && exceptIsOk b.generateRes && exceptIsOk b.persistRes &&
    exceptIsOk b.archiveRes && exceptIsOk b.deleteRes

/-- A concrete remote handle for the shared reference manual. -/
def manualHandle : Handle := ⟨"files/manual".toList, "uriA".toList⟩

/-- A concrete remote handle for an uploaded document. -/
def docHandle : Handle := ⟨"files/doc".toList, "uriD".toList⟩

/-- A document for which every step succeeds. -/
def okDocBehavior : DocBehavior :=
  ⟨Except.ok docHandle, Except.ok "summary text".toList, Except.ok (), Except.ok (), Except.ok ()⟩

/-- A document whose generation step raises. -/
def genFailBehavior : DocBehavior :=
  ⟨Except.ok docHandle, Except.error "boom".toList, Except.ok (), Except.ok (), Except.ok ()⟩

/-- A run in which the attachment upload succeeds but the input directory
holds no eligible file. -/
def envEmptyScan : Env :=
  ⟨some "key".toList, some "prompt".toList, some (Except.ok []), true, Except.ok manualHandle,
    some ["notes.txt".toList], fun _ => okDocBehavior⟩

/-- A run in which the credential is present but the prompt file is
missing. -/
def envPromptMissing : Env :=
  ⟨some "key".toList, none, some (Except.ok []), false, Except.error "unused".toList,
    some [], fun _ => okDocBehavior⟩

/-- A run in which the credential (both the environment variable and the
inline fallback) is missing. -/
def envNoKey : Env :=
  ⟨none, some "prompt".toList, some (Except.ok []), false, Except.error "unused".toList,
    some [], fun _ => okDocBehavior⟩

/-- Two pending documents; generation raises for the first, everything
succeeds for the second. -/
def envTwoDocs : Env :=
  ⟨some "key".toList, some "prompt".toList, some (Except.ok []), false,
    Except.error "unused".toList, some ["a.pdf".toList, "b.pdf".toList],
    fun f => if f = "a.pdf".toList then genFailBehavior else okDocBehavior⟩

/-- One pending document whose basename is not in the (empty) index. -/
def envFallbackDoc : Env :=
  ⟨some "key".toList, some "prompt".toList, some (Except.ok []), false,
    Except.error "unused".toList, some ["a.pdf".toList], fun _ => okDocBehavior⟩

/-- One pending document whose index entry maps its basename to its own
filename stem. -/
def envStemCollision : Env :=
  ⟨some "key".toList, some "prompt".toList,
    some (Except.ok [⟨some "a".toList, some ":d/a.pdf:PDF".toList⟩]), false,
    Except.error "unused".toList, some ["a.pdf".toList], fun _ => okDocBehavior⟩

/-- One pending document, no local auxiliary attachment. -/
def envNoAttach : Env :=
  ⟨some "key".toList, some "prompt".toList, some (Except.ok []), false,
    Except.error "unused".toList, some ["a.pdf".toList], fun _ => okDocBehavior⟩

/-- A run whose input directory exists but contains no eligible file. -/
def envNoFiles : Env :=
  ⟨some "key".toList, some "prompt".toList, some (Except.ok []), false,
    Except.error "unused".toList, some ["readme.md".toList], fun _ => okDocBehavior⟩

theorem splitOnChar_not_mem {c : Char} {s : List Char} (h : c ∉ s) : splitOnChar c s = [s] := by
  induction s with
  | nil => rfl
  | cons x xs ih =>
    have hx : ¬ x = c := by rintro rfl; exact h (List.mem_cons_self _ _)
    have hxs : c ∉ xs := fun hm => h (List.mem_cons_of_mem _ hm)
    simp [splitOnChar, hx, ih hxs]

theorem splitOnChar_append {c : Char} {a : List Char} (b : List Char) (h : c ∉ a) :
    splitOnChar c (a ++ c :: b) = a :: splitOnChar c b := by
  induction a with
  | nil => simp [splitOnChar]
  | cons x xs ih =>
    have hx : ¬ x = c := by rintro rfl; exact h (List.mem_cons_self _ _)
    have hxs : c ∉ xs := fun hm => h (List.mem_cons_of_mem _ hm)
    simp [splitOnChar, hx, ih hxs]

theorem listStartsWith_append (p r : List Char) : listStartsWith p (p ++ r) = true := by
  induction p with
  | nil => rfl
  | cons x xs ih => simp [listStartsWith, ih]

theorem listStartsWith_exists {p l : List Char} (h : listStartsWith p l = true) :
    ∃ r, l = p ++ r := by
  induction p generalizing l with
  | nil => exact ⟨l, rfl⟩
  | cons x xs ih =>
    cases l with
    | nil => simp [listStartsWith] at h
    | cons y ys =>
      by_cases hxy : x = y
      · subst hxy
        obtain ⟨r, hr⟩ := ih (by simpa [listStartsWith] using h)
        exact ⟨r, by simp [hr]⟩
      · simp [listStartsWith, hxy] at h

theorem listEndsWith_exists {suf s : List Char} (h : listEndsWith suf s = true) :
    ∃ pre, s = pre ++ suf := by
  obtain ⟨r, hr⟩ := listStartsWith_exists h
  refine ⟨r.reverse, ?_⟩
  have h2 : s.reverse.reverse = (suf.reverse ++ r).reverse := by rw [hr]
  simpa using h2

theorem containsSub_of_startsWith {sub s : List Char} (h : listStartsWith sub s = true) :
    containsSub sub s = true := by
  cases s with
  | nil => simpa [containsSub] using h
  | cons y ys => simp [containsSub, h]

theorem containsSub_append (sub a b : List Char) : containsSub sub (a ++ (sub ++ b)) = true := by
  induction a with
  | nil => exact containsSub_of_startsWith (by simpa using listStartsWith_append sub b)
  | cons x xs ih => simp [containsSub, ih]

theorem containsSub_of_middle {sub x : List Char} (a b : List Char)
    (h : listEndsWith sub x = true) : containsSub sub (a ++ x ++ b) = true := by
  obtain ⟨pre, hpre⟩ := listEndsWith_exists h
  have h2 : a ++ x ++ b = (a ++ pre) ++ (sub ++ b) := by rw [hpre]; simp [List.append_assoc]
  rw [h2]
  exact containsSub_append sub (a ++ pre) b

theorem toLower_colon : Char.toLower ':' = ':' := by decide

theorem findSome?_eq_none_of {α β : Type} {f : α → Option β} {l : List α}
    (h : ∀ x ∈ l, f x = none) : l.findSome? f = none := by
  induction l with
  | nil => rfl
  | cons x xs ih =>
    simp [List.findSome?, h x (List.mem_cons_self _ _),
      ih fun y hy => h y (List.mem_cons_of_mem _ hy)]

theorem findSome?_singleton {α β : Type} (f : α → Option β) (x : α) :
    [x].findSome? f = f x := by
  cases h : f x <;> simp [List.findSome?, h]

/-- C4: for every file-field string of the shape `:P:T` — a path segment `P`
(free of the `:` and `;` delimiters) whose lowercase form ends in `.pdf` or
`.html`, preceded by a colon and followed by a colon-delimited metadata tag
`T` that does not itself name such a file — `parse_file_path_from_entry`
returns exactly the path segment `P`. -/
theorem resolver_tagged_path (P T : List Char)
    (hPc : ':' ∉ P) (hPs : ';' ∉ P) (hTc : ':' ∉ T) (hTs : ';' ∉ T)
    (hP : segIsFile P = true) (hT : segIsFile T = false) :
    parse_file_path_from_entry (':' :: (P ++ ':' :: T)) = some P := by
  have hsemi : ';' ∉ (':' :: (P ++ ':' :: T)) := by
    intro hm
    rcases List.mem_cons.mp hm with h1 | h1
    · exact absurd h1 (by decide)
    · rcases List.mem_append.mp h1 with h2 | h2
      · exact hPs h2
      · rcases List.mem_cons.mp h2 with h3 | h3
        · exact absurd h3 (by decide)
        · exact hTs h3
  have hshape : strToLower (':' :: (P ++ ':' :: T)) =
      [':'] ++ strToLower P ++ (':' :: strToLower T) := by
    simp [strToLower, toLower_colon]
  have hq : partQualifies (':' :: (P ++ ':' :: T)) = true := by
    have hP2 : listEndsWith ".pdf".toList (strToLower P) = true ∨
        listEndsWith ".html".toList (strToLower P) = true := by
      simpa [segIsFile] using hP
    rcases hP2 with hend | hend
    · have hc : containsSub ".pdf".toList (strToLower (':' :: (P ++ ':' :: T))) = true := by
        rw [hshape]; exact containsSub_of_middle _ _ hend
      simp [partQualifies]
      exact Or.inl (by simpa using hc)
    · have hc : containsSub ".html".toList (strToLower (':' :: (P ++ ':' :: T))) = true := by
        rw [hshape]; exact containsSub_of_middle _ _ hend
      simp [partQualifies]
      exact Or.inr (by simpa using hc)
  have hcolon : splitOnChar ':' (':' :: (P ++ ':' :: T)) = [[], P, T] := by
    have h1 : splitOnChar ':' (':' :: (P ++ ':' :: T)) =
        [] :: splitOnChar ':' (P ++ ':' :: T) := by simp [splitOnChar]
    rw [h1, splitOnChar_append T hPc, splitOnChar_not_mem hTc]
  unfold parse_file_path_from_entry
  rw [if_neg (by simp), splitOnChar_not_mem hsemi, findSome?_singleton, if_pos hq, hcolon]
  simp [List.find?, hT, hP]

theorem resolver_tagged_path_witness :
    parse_file_path_from_entry (':' :: ("sub/dir/name.pdf".toList ++ ':' :: "PDF".toList)) =
      some "sub/dir/name.pdf".toList :=
  resolver_tagged_path "sub/dir/name.pdf".toList "PDF".toList (by decide) (by decide)
    (by decide) (by decide) (by decide) (by decide)

/-- C5: a file-field string none of whose `;`-parts contains `.pdf` or
`.html` case-insensitively resolves to no match, and the empty (absent)
file field resolves to no match; neither is an error. -/
theorem resolver_no_match (s : List Char)
    (h : ∀ part ∈ splitOnChar ';' s,
      containsSub ".pdf".toList (strToLower part) = false ∧
        containsSub ".html".toList (strToLower part) = false) :
    parse_file_path_from_entry s = none ∧ parse_file_path_from_entry [] = none := by
  refine ⟨?_, rfl⟩
  unfold parse_file_path_from_entry
  split
  · rfl
  · refine findSome?_eq_none_of fun part hp => ?_
    have hp1 := (h part hp).1
    have hp2 := (h part hp).2
    simp at hp1 hp2
    simp [partQualifies, hp1, hp2]

theorem resolver_no_match_witness :
    parse_file_path_from_entry "no usable file field; just text".toList = none :=
  (resolver_no_match "no usable file field; just text".toList (by decide)).1

/-- C6: two bibliography entries whose file fields resolve to the same
basename but which carry different citation keys produce a single index
mapping for that basename, holding the key of the later entry (last-wins
overwrite); an entry missing the citation key or the file field is skipped;
and an entirely empty resulting index produces a warning while the run
continues with exit status 0. -/
theorem citekey_map_last_wins (k1 k2 ff1 ff2 p1 p2 : List Char)
    (hk1 : k1 ≠ []) (hk2 : k2 ≠ []) (_hne : k1 ≠ k2)
    (h1 : parse_file_path_from_entry ff1 = some p1)
    (h2 : parse_file_path_from_entry ff2 = some p2)
    (hb : basename p1 = basename p2) :
    (create_pdf_to_citekey_map [⟨some k1, some ff1⟩, ⟨some k2, some ff2⟩] =
        [(basename p2, k2)] ∧
      dictGet? (create_pdf_to_citekey_map [⟨some k1, some ff1⟩, ⟨some k2, some ff2⟩])
          (basename p2) = some k2) ∧
    (∀ (m : List (List Char × List Char)) (e : BibEntry),
        e.ID = none ∨ e.file = none → stepEntry m e = m) ∧
    (∀ (env : Env) (mp : List Char) (entries : List BibEntry),
        isFalsy env.gemini_api_key = false → env.master_prompt_file = some mp →
        env.bibtex_file = some (Except.ok entries) →
        create_pdf_to_citekey_map entries = [] →
        Event.warnedEmptyIndex ∈ (run_program env).1 ∧ (run_program env).2 = 0) := by
  have hff1 : ¬ ff1 = [] := by
    intro hx; rw [hx] at h1; simp [parse_file_path_from_entry] at h1
  have hff2 : ¬ ff2 = [] := by
    intro hx; rw [hx] at h2; simp [parse_file_path_from_entry] at h2
  refine ⟨?_, ?_, ?_⟩
  · have hmap : create_pdf_to_citekey_map [⟨some k1, some ff1⟩, ⟨some k2, some ff2⟩] =
        [(basename p2, k2)] := by
      simp [create_pdf_to_citekey_map, stepEntry, hk1, hk2, hff1, hff2, h1, h2, hb, dictInsert]
    exact ⟨hmap, by simp [hmap, dictGet?]⟩
  · intro m e he
    rcases e with ⟨eid, efile⟩
    cases eid with
    | none => cases efile <;> rfl
    | some k =>
      cases efile with
      | none => rfl
      | some ffield => simp at he
  · intro env mp entries hkey hmp hbib hmap
    constructor
    · simp [run_program, hkey, main_events, hmp, hbib, hmap]
    · simp [run_program, hkey]

theorem citekey_map_last_wins_witness :
    dictGet?
        (create_pdf_to_citekey_map
          [⟨some "hayesA".toList, some ":d/a.pdf:PDF".toList⟩,
            ⟨some "hayesB".toList, some ":e/a.pdf:PDF".toList⟩])
        (basename "e/a.pdf".toList) = some "hayesB".toList :=
  (citekey_map_last_wins "hayesA".toList "hayesB".toList ":d/a.pdf:PDF".toList
    ":e/a.pdf:PDF".toList "d/a.pdf".toList "e/a.pdf".toList (by decide) (by decide)
    (by decide) (by decide) (by decide) (by decide)).1.2

theorem run_program_key_ok {env : Env} (h : isFalsy env.gemini_api_key = false) :
    run_program env = (Event.configuredKey :: main_events env, 0) := by
  simp [run_program, h]

theorem main_events_loop {env : Env} {mp : List Char} {entries : List BibEntry}
    {listing : List (List Char)}
    (hmp : env.master_prompt_file = some mp)
    (hbib : env.bibtex_file = some (Except.ok entries))
    (hls : env.papers_listing = some listing)
    (hne : listing.filter isEligible ≠ []) :
    main_events env =
      Event.dirsSetup :: Event.loadedPrompt :: Event.loadedBib ::
        ((if create_pdf_to_citekey_map entries = [] then [Event.warnedEmptyIndex] else []) ++
          ((attachPhase env).1 ++
            (Event.foundFiles (listing.filter isEligible) ::
              (concatMap
                  (fun f => docEvents mp (attachPhase env).2
                    (create_pdf_to_citekey_map entries) (env.docBeh f) f)
                  (listing.filter isEligible) ++
                (attachCleanup (attachPhase env).2 ++ [Event.finished]))))) := by
  simp [main_events, hmp, hbib, hls, hne]

theorem main_events_nofiles {env : Env} {mp : List Char} {entries : List BibEntry}
    {listing : List (List Char)}
    (hmp : env.master_prompt_file = some mp)
    (hbib : env.bibtex_file = some (Except.ok entries))
    (hls : env.papers_listing = some listing)
    (hfe : listing.filter isEligible = []) :
    main_events env =
      Event.dirsSetup :: Event.loadedPrompt :: Event.loadedBib ::
        ((if create_pdf_to_citekey_map entries = [] then [Event.warnedEmptyIndex] else []) ++
          ((attachPhase env).1 ++ [Event.noNewPapers])) := by
  simp [main_events, hmp, hbib, hls, hfe]

theorem mem_concatMap {α β : Type} {g : α → List β} {x : α} {e : β} {l : List α}
    (hx : x ∈ l) (he : e ∈ g x) : e ∈ concatMap g l := by
  induction l with
  | nil => cases hx
  | cons y ys ih =>
    rcases List.mem_cons.mp hx with h | h
    · subst h
      simp only [concatMap]
      exact List.mem_append_left _ he
    · simp only [concatMap]
      exact List.mem_append_right _ (ih h)

theorem mem_concatMap_inv {α β : Type} {g : α → List β} {e : β} {l : List α}
    (h : e ∈ concatMap g l) : ∃ x, x ∈ l ∧ e ∈ g x := by
  induction l with
  | nil => simp [concatMap] at h
  | cons y ys ih =>
    simp only [concatMap] at h
    rcases List.mem_append.mp h with h1 | h1
    · exact ⟨y, List.mem_cons_self _ _, h1⟩
    · obtain ⟨x, hx, he⟩ := ih h1
      exact ⟨x, List.mem_cons_of_mem _ hx, he⟩

theorem mem_trace_of_mem_docEvents {env : Env} {mp : List Char} {entries : List BibEntry}
    {listing : List (List Char)} {f : List Char} {e : Event}
    (hkey : isFalsy env.gemini_api_key = false)
    (hmp : env.master_prompt_file = some mp)
    (hbib : env.bibtex_file = some (Except.ok entries))
    (hls : env.papers_listing = some listing)
    (hf : f ∈ listing.filter isEligible)
    (he : e ∈ docEvents mp (attachPhase env).2 (create_pdf_to_citekey_map entries)
      (env.docBeh f) f) :
    e ∈ (run_program env).1 := by
  have hne : listing.filter isEligible ≠ [] := List.ne_nil_of_mem hf
  have h1 : e ∈ concatMap
      (fun f => docEvents mp (attachPhase env).2 (create_pdf_to_citekey_map entries)
        (env.docBeh f) f)
      (listing.filter isEligible) := mem_concatMap hf he
  rw [run_program_key_ok hkey]
  rw [show (Event.configuredKey :: main_events env, 0).1 = Event.configuredKey :: main_events env
    from rfl]
  rw [main_events_loop hmp hbib hls hne]
  exact List.mem_cons_of_mem _ (List.mem_cons_of_mem _ (List.mem_cons_of_mem _
    (List.mem_cons_of_mem _ (List.mem_append_right _ (List.mem_append_right _
      (List.mem_cons_of_mem _ (List.mem_append_left _ h1)))))))

theorem keyEvents_cases {m : List (List Char × List Char)} {f : List Char} {e : Event}
    (h : e ∈ keyEvents m f) :
    e = Event.warnedFallback f ∨ e = Event.foundCitekey (resolve_citekey m f) := by
  unfold keyEvents at h
  split at h <;> simp_all

theorem generated_not_mem_keyEvents (m : List (List Char × List Char)) (f : List Char)
    (parts : List ReqPart) : Event.generated parts ∉ keyEvents m f := by
  intro h
  rcases keyEvents_cases h with h1 | h1 <;> cases h1

theorem docEvents_ok_shape (mp : List Char) (attach : Option Handle)
    (m : List (List Char × List Char)) (f : List Char) {b : DocBehavior}
    (hb : docOk b = true) :
    ∃ h txt, b.uploadRes = Except.ok h ∧ b.generateRes = Except.ok txt ∧
      docEvents mp attach m b f =
        Event.procStart f ::
          (keyEvents m f ++
            [Event.uploadedDoc h, Event.generated (payloadParts mp attach h),
              Event.appendedSummary (resolve_citekey m f) txt, Event.archived f,
              Event.deletedRemoteDoc h.name]) := by
  obtain ⟨u, g, p, a, d⟩ := b
  cases u with
  | error msg => simp [docOk, exceptIsOk] at hb
  | ok h =>
    cases g with
    | error msg => simp [docOk, exceptIsOk] at hb
    | ok txt =>
      cases p with
      | error msg => simp [docOk, exceptIsOk] at hb
      | ok pv =>
        cases a with
        | error msg => simp [docOk, exceptIsOk] at hb
        | ok av =>
          cases d with
          | error msg => simp [docOk, exceptIsOk] at hb
          | ok dv => exact ⟨h, txt, rfl, rfl, by simp [docEvents]⟩

theorem docEvents_fail_report (mp : List Char) (attach : Option Handle)
    (m : List (List Char × List Char)) (f : List Char) {b : DocBehavior}
    (hb : docOk b = false) :
    ∃ msg, Event.docError f msg ∈ docEvents mp attach m b f := by
  obtain ⟨u, g, p, a, d⟩ := b
  cases u <;> cases g <;> cases p <;> cases a <;> cases d <;>
    simp_all [docOk, exceptIsOk, docEvents]

theorem generated_mem_docEvents_inv {mp : List Char} {attach : Option Handle}
    {m : List (List Char × List Char)} {b : DocBehavior} {f : List Char}
    {parts : List ReqPart}
    (h : Event.generated parts ∈ docEvents mp attach m b f) :
    ∃ hh, b.uploadRes = Except.ok hh ∧ parts = payloadParts mp attach hh := by
  obtain ⟨u, g, p, a, d⟩ := b
  cases u <;> cases g <;> cases p <;> cases a <;> cases d <;>
    simp_all [docEvents, generated_not_mem_keyEvents]

theorem docEvents_mem_cases {mp : List Char} {attach : Option Handle}
    {m : List (List Char × List Char)} {b : DocBehavior} {f : List Char} {e : Event}
    (h : e ∈ docEvents mp attach m b f) :
    e = Event.procStart f ∨ e ∈ keyEvents m f ∨
      (∃ hh, e = Event.uploadedDoc hh) ∨ (∃ ps, e = Event.generated ps) ∨
      (∃ k t, e = Event.appendedSummary k t) ∨ e = Event.archived f ∨
      (∃ n, e = Event.deletedRemoteDoc n) ∨ (∃ msg, e = Event.docError f msg) := by
  obtain ⟨u, g, p, a, d⟩ := b
  cases u <;> cases g <;> cases p <;> cases a <;> cases d <;>
    simp_all [docEvents] <;> aesop

theorem attachPhase_events_cases {env : Env} {e : Event} (h : e ∈ (attachPhase env).1) :
    (∃ hh, e = Event.uploadedAttachment hh) ∨ (∃ msg, e = Event.attachUploadFailed msg) ∨
      e = Event.attachMissing := by
  unfold attachPhase at h
  cases hs : env.siunitx_exists <;> cases hu : env.siunitx_upload <;> simp_all

theorem attachPhase_snd_of_not_exists {env : Env} (h : env.siunitx_exists = false) :
    (attachPhase env).2 = none := by
  simp [attachPhase, h]

theorem attachPhase_no_procStart {env : Env} {e : Event} (h : e ∈ (attachPhase env).1) :
    isProcStart e = false := by
  rcases attachPhase_events_cases h with ⟨hh, rfl⟩ | ⟨msg, rfl⟩ | rfl <;> rfl

theorem attachPhase_no_appendSummary {env : Env} {e : Event} (h : e ∈ (attachPhase env).1) :
    isAppendSummary e = false := by
  rcases attachPhase_events_cases h with ⟨hh, rfl⟩ | ⟨msg, rfl⟩ | rfl <;> rfl

theorem attachPhase_no_attachDelete {env : Env} {e : Event} (h : e ∈ (attachPhase env).1) :
    isAttachDelete e = false := by
  rcases attachPhase_events_cases h with ⟨hh, rfl⟩ | ⟨msg, rfl⟩ | rfl <;> rfl

theorem docEvents_no_attachDelete {mp : List Char} {attach : Option Handle}
    {m : List (List Char × List Char)} {b : DocBehavior} {f : List Char} {e : Event}
    (h : e ∈ docEvents mp attach m b f) : isAttachDelete e = false := by
  rcases docEvents_mem_cases h with h | h | ⟨x, h⟩ | ⟨x, h⟩ | ⟨k, t, h⟩ | h | ⟨n, h⟩ | ⟨msg, h⟩
  · subst h; rfl
  · rcases keyEvents_cases h with h1 | h1 <;> (subst h1; rfl)
  · subst h; rfl
  · subst h; rfl
  · subst h; rfl
  · subst h; rfl
  · subst h; rfl
  · subst h; rfl

theorem mem_ite_warn {c : Prop} [Decidable c] {e : Event}
    (h : e ∈ (if c then [Event.warnedEmptyIndex] else ([] : List Event))) :
    e = Event.warnedEmptyIndex := by
  split at h <;> simp_all

theorem main_events_nodir {env : Env} {mp : List Char} {entries : List BibEntry}
    (hmp : env.master_prompt_file = some mp)
    (hbib : env.bibtex_file = some (Except.ok entries))
    (hls : env.papers_listing = none) :
    main_events env =
      Event.dirsSetup :: Event.loadedPrompt :: Event.loadedBib ::
        ((if create_pdf_to_citekey_map entries = [] then [Event.warnedEmptyIndex] else []) ++
          ((attachPhase env).1 ++ [Event.errNoPapersDir])) := by
  simp [main_events, hmp, hbib, hls]

theorem nofiles_trace_mem {env : Env} {mp : List Char} {entries : List BibEntry}
    {listing : List (List Char)} {e : Event}
    (hkey : isFalsy env.gemini_api_key = false)
    (hmp : env.master_prompt_file = some mp)
    (hbib : env.bibtex_file = some (Except.ok entries))
    (hls : env.papers_listing = some listing)
    (hfe : listing.filter isEligible = [])
    (he : e ∈ (run_program env).1) :
    e = Event.configuredKey ∨ e = Event.dirsSetup ∨ e = Event.loadedPrompt ∨
      e = Event.loadedBib ∨ e = Event.warnedEmptyIndex ∨ e ∈ (attachPhase env).1 ∨
      e = Event.noNewPapers := by
  have he2 : e ∈ Event.configuredKey :: main_events env := by
    rw [run_program_key_ok hkey] at he; exact he
  rw [main_events_nofiles hmp hbib hls hfe] at he2
  simp only [List.mem_cons, List.mem_append, List.not_mem_nil, or_false] at he2
  rcases he2 with h | h | h | h | h
  · exact Or.inl h
  · exact Or.inr (Or.inl h)
  · exact Or.inr (Or.inr (Or.inl h))
  · exact Or.inr (Or.inr (Or.inr (Or.inl h)))
  · rcases h with h | h
    · exact Or.inr (Or.inr (Or.inr (Or.inr (Or.inl (mem_ite_warn h)))))
    · rcases h with h | h
      · exact Or.inr (Or.inr (Or.inr (Or.inr (Or.inr (Or.inl h)))))
      · exact Or.inr (Or.inr (Or.inr (Or.inr (Or.inr (Or.inr h)))))

theorem nodir_trace_mem {env : Env} {mp : List Char} {entries : List BibEntry} {e : Event}
    (hkey : isFalsy env.gemini_api_key = false)
    (hmp : env.master_prompt_file = some mp)
    (hbib : env.bibtex_file = some (Except.ok entries))
    (hls : env.papers_listing = none)
    (he : e ∈ (run_program env).1) :
    e = Event.configuredKey ∨ e = Event.dirsSetup ∨ e = Event.loadedPrompt ∨
      e = Event.loadedBib ∨ e = Event.warnedEmptyIndex ∨ e ∈ (attachPhase env).1 ∨
      e = Event.errNoPapersDir := by
  have he2 : e ∈ Event.configuredKey :: main_events env := by
    rw [run_program_key_ok hkey] at he; exact he
  rw [main_events_nodir hmp hbib hls] at he2
  simp only [List.mem_cons, List.mem_append, List.not_mem_nil, or_false] at he2
  rcases he2 with h | h | h | h | h
  · exact Or.inl h
  · exact Or.inr (Or.inl h)
  · exact Or.inr (Or.inr (Or.inl h))
  · exact Or.inr (Or.inr (Or.inr (Or.inl h)))
  · rcases h with h | h
    · exact Or.inr (Or.inr (Or.inr (Or.inr (Or.inl (mem_ite_warn h)))))
    · rcases h with h | h
      · exact Or.inr (Or.inr (Or.inr (Or.inr (Or.inr (Or.inl h)))))
      · exact Or.inr (Or.inr (Or.inr (Or.inr (Or.inr (Or.inr h)))))

theorem loop_trace_mem {env : Env} {mp : List Char} {entries : List BibEntry}
    {listing : List (List Char)} {e : Event}
    (hkey : isFalsy env.gemini_api_key = false)
    (hmp : env.master_prompt_file = some mp)
    (hbib : env.bibtex_file = some (Except.ok entries))
    (hls : env.papers_listing = some listing)
    (hne : listing.filter isEligible ≠ [])
    (he : e ∈ (run_program env).1) :
    e = Event.configuredKey ∨ e = Event.dirsSetup ∨ e = Event.loadedPrompt ∨
      e = Event.loadedBib ∨ e = Event.warnedEmptyIndex ∨ e ∈ (attachPhase env).1 ∨
      e = Event.foundFiles (listing.filter isEligible) ∨
      (∃ f, f ∈ listing.filter isEligible ∧
        e ∈ docEvents mp (attachPhase env).2 (create_pdf_to_citekey_map entries)
          (env.docBeh f) f) ∨
      e ∈ attachCleanup (attachPhase env).2 ∨ e = Event.finished := by
  have he2 : e ∈ Event.configuredKey :: main_events env := by
    rw [run_program_key_ok hkey] at he; exact he
  rw [main_events_loop hmp hbib hls hne] at he2
  simp only [List.mem_cons, List.mem_append, List.not_mem_nil, or_false] at he2
  rcases he2 with h | h | h | h | h
  · exact Or.inl h
  · exact Or.inr (Or.inl h)
  · exact Or.inr (Or.inr (Or.inl h))
  · exact Or.inr (Or.inr (Or.inr (Or.inl h)))
  · rcases h with h | h
    · exact Or.inr (Or.inr (Or.inr (Or.inr (Or.inl (mem_ite_warn h)))))
    · rcases h with h | h
      · exact Or.inr (Or.inr (Or.inr (Or.inr (Or.inr (Or.inl h)))))
      · rcases h with h | h
        · exact Or.inr (Or.inr (Or.inr (Or.inr (Or.inr (Or.inr (Or.inl h))))))
        · rcases h with h | h
          · obtain ⟨f, hf, hd⟩ := mem_concatMap_inv h
            exact Or.inr (Or.inr (Or.inr (Or.inr (Or.inr (Or.inr (Or.inr
              (Or.inl ⟨f, hf, hd⟩)))))))
          · rcases h with h | h
            · exact Or.inr (Or.inr (Or.inr (Or.inr (Or.inr (Or.inr (Or.inr
                (Or.inr (Or.inl h))))))))
            · exact Or.inr (Or.inr (Or.inr (Or.inr (Or.inr (Or.inr (Or.inr
                (Or.inr (Or.inr h))))))))

/-- C1: the claim says that once the shared auxiliary attachment is uploaded
its remote handle is deleted exactly once at the very end on every non-fatal
path, in particular also when the scan yields zero eligible documents.  The
code violates this: in this concrete run the attachment upload succeeds, the
scan finds no eligible file, the run ends normally (exit status 0, with the
no-new-papers notice) — and the early return skips the cleanup, so no
attachment delete is ever performed and the remote handle leaks. -/
theorem attachment_leak_on_empty_scan :
    Event.uploadedAttachment manualHandle ∈ (run_program envEmptyScan).1 ∧
      Event.noNewPapers ∈ (run_program envEmptyScan).1 ∧
      (run_program envEmptyScan).2 = 0 ∧
      (run_program envEmptyScan).1.filter isAttachDelete = [] := by decide

/-- C2 counterexample: with the credential present but the prompt file
missing — one of the claim's fatal setup conditions — the run stops before
any document is processed and prints the diagnostic, but the process exit
status is 0, not non-zero as the claim states. -/
theorem fatal_prompt_missing_exit_zero :
    Event.errNoPrompt ∈ (run_program envPromptMissing).1 ∧
      (run_program envPromptMissing).1.filter isProcStart = [] ∧
      (run_program envPromptMissing).2 = 0 := by decide

/-- C2 (amended): every fatal setup condition stops the run before any
document is processed and reports its specific diagnostic; but only the
missing-credential check exits with non-zero status (1), while a missing
prompt file, a missing or unparseable bibliography, and a missing input
directory return from `main` after the diagnostic, so the process exits with
status 0. -/
theorem fatal_setup_aborts (env : Env) :
    (isFalsy env.gemini_api_key = true → run_program env = ([Event.errNoApiKey], 1)) ∧
    (isFalsy env.gemini_api_key = false → env.master_prompt_file = none →
      Event.errNoPrompt ∈ (run_program env).1 ∧
        (run_program env).1.filter isProcStart = [] ∧ (run_program env).2 = 0) ∧
    (∀ mp, isFalsy env.gemini_api_key = false → env.master_prompt_file = some mp →
      env.bibtex_file = none →
      Event.errNoBib ∈ (run_program env).1 ∧
        (run_program env).1.filter isProcStart = [] ∧ (run_program env).2 = 0) ∧
    (∀ mp msg, isFalsy env.gemini_api_key = false → env.master_prompt_file = some mp →
      env.bibtex_file = some (Except.error msg) →
      Event.errBibParse msg ∈ (run_program env).1 ∧
        (run_program env).1.filter isProcStart = [] ∧ (run_program env).2 = 0) ∧
    (∀ mp entries, isFalsy env.gemini_api_key = false → env.master_prompt_file = some mp →
      env.bibtex_file = some (Except.ok entries) → env.papers_listing = none →
      Event.errNoPapersDir ∈ (run_program env).1 ∧
        (run_program env).1.filter isProcStart = [] ∧ (run_program env).2 = 0) := by
  refine ⟨?_, ?_, ?_, ?_, ?_⟩
  · intro hkey
    simp [run_program, hkey, API_KEY_PLACEHOLDER]
  · intro hkey hmp
    have ht : (run_program env).1 =
        [Event.configuredKey, Event.dirsSetup, Event.errNoPrompt] := by
      rw [run_program_key_ok hkey]; simp [main_events, hmp]
    exact ⟨by rw [ht]; simp, by rw [ht]; rfl, by rw [run_program_key_ok hkey]⟩
  · intro mp hkey hmp hbib
    have ht : (run_program env).1 =
        [Event.configuredKey, Event.dirsSetup, Event.loadedPrompt, Event.errNoBib] := by
      rw [run_program_key_ok hkey]; simp [main_events, hmp, hbib]
    exact ⟨by rw [ht]; simp, by rw [ht]; rfl, by rw [run_program_key_ok hkey]⟩
  · intro mp msg hkey hmp hbib
    have ht : (run_program env).1 =
        [Event.configuredKey, Event.dirsSetup, Event.loadedPrompt, Event.errBibParse msg] := by
      rw [run_program_key_ok hkey]; simp [main_events, hmp, hbib]
    exact ⟨by rw [ht]; simp, by rw [ht]; rfl, by rw [run_program_key_ok hkey]⟩
  · intro mp entries hkey hmp hbib hls
    refine ⟨?_, ?_, by rw [run_program_key_ok hkey]⟩
    · rw [run_program_key_ok hkey]
      have h1 : Event.errNoPapersDir ∈ main_events env := by
        rw [main_events_nodir hmp hbib hls]; simp
      exact List.mem_cons_of_mem _ h1
    · refine List.filter_eq_nil_iff.mpr fun e he => ?_
      rcases nodir_trace_mem hkey hmp hbib hls he with h | h | h | h | h | h | h
      · subst h; simp [isProcStart]
      · subst h; simp [isProcStart]
      · subst h; simp [isProcStart]
      · subst h; simp [isProcStart]
      · subst h; simp [isProcStart]
      · simp [attachPhase_no_procStart h]
      · subst h; simp [isProcStart]

theorem fatal_setup_aborts_witness :
    run_program envNoKey = ([Event.errNoApiKey], 1) ∧
      Event.errNoPrompt ∈ (run_program envPromptMissing).1 ∧
      (run_program envPromptMissing).2 = 0 := by
  refine ⟨(fatal_setup_aborts envNoKey).1 (by decide), ?_, ?_⟩
  · exact ((fatal_setup_aborts envPromptMissing).2.1 (by decide) rfl).1
  · exact ((fatal_setup_aborts envPromptMissing).2.1 (by decide) rfl).2.2

/-- C3: on any run that reaches the processing loop, every eligible document
is started regardless of the other documents' outcomes; a document any of
whose steps raises gets its failure reported as a per-document error; and a
document whose own steps all succeed is fully summarized, persisted and
archived, whatever happened to the documents before it — the batch is never
aborted by a per-document failure. -/
theorem per_document_isolation (env : Env) (mp : List Char) (entries : List BibEntry)
    (listing : List (List Char))
    (hkey : isFalsy env.gemini_api_key = false)
    (hmp : env.master_prompt_file = some mp)
    (hbib : env.bibtex_file = some (Except.ok entries))
    (hls : env.papers_listing = some listing) :
    ∀ f ∈ listing.filter isEligible,
      Event.procStart f ∈ (run_program env).1 ∧
      (docOk (env.docBeh f) = false →
        ∃ msg, Event.docError f msg ∈ (run_program env).1) ∧
      (docOk (env.docBeh f) = true →
        ∃ txt, (env.docBeh f).generateRes = Except.ok txt ∧
          Event.appendedSummary (resolve_citekey (create_pdf_to_citekey_map entries) f) txt ∈
            (run_program env).1 ∧
          Event.archived f ∈ (run_program env).1) := by
  intro f hf
  refine ⟨?_, ?_, ?_⟩
  · exact mem_trace_of_mem_docEvents hkey hmp hbib hls hf (by simp [docEvents])
  · intro hbad
    obtain ⟨msg, hm⟩ := docEvents_fail_report mp (attachPhase env).2
      (create_pdf_to_citekey_map entries) f hbad
    exact ⟨msg, mem_trace_of_mem_docEvents hkey hmp hbib hls hf hm⟩
  · intro hok
    obtain ⟨hh, txt, hu, hg, hshape⟩ := docEvents_ok_shape mp (attachPhase env).2
      (create_pdf_to_citekey_map entries) f hok
    refine ⟨txt, hg, ?_, ?_⟩
    · refine mem_trace_of_mem_docEvents hkey hmp hbib hls hf ?_
      rw [hshape]; simp
    · refine mem_trace_of_mem_docEvents hkey hmp hbib hls hf ?_
      rw [hshape]; simp

theorem per_document_isolation_witness :
    Event.procStart "a.pdf".toList ∈ (run_program envTwoDocs).1 ∧
      Event.procStart "b.pdf".toList ∈ (run_program envTwoDocs).1 ∧
      Event.archived "b.pdf".toList ∈ (run_program envTwoDocs).1 := by
  have ha := per_document_isolation envTwoDocs "prompt".toList []
    ["a.pdf".toList, "b.pdf".toList] (by decide) rfl rfl rfl "a.pdf".toList (by decide)
  have hb := per_document_isolation envTwoDocs "prompt".toList []
    ["a.pdf".toList, "b.pdf".toList] (by decide) rfl rfl rfl "b.pdf".toList (by decide)
  obtain ⟨txt, hg, hsum, harch⟩ := hb.2.2 (by decide)
  exact ⟨ha.1, hb.1, harch⟩

/-- C7: a pending document whose filename is not a key of the citekey index
has its key resolved to the filename without its extension (the stem), the
fallback is reported as a warning, and the run nevertheless completes (the
notice is non-fatal). -/
theorem citekey_fallback_stem (env : Env) (mp : List Char) (entries : List BibEntry)
    (listing : List (List Char)) (f : List Char)
    (hkey : isFalsy env.gemini_api_key = false)
    (hmp : env.master_prompt_file = some mp)
    (hbib : env.bibtex_file = some (Except.ok entries))
    (hls : env.papers_listing = some listing)
    (hf : f ∈ listing.filter isEligible)
    (habs : dictGet? (create_pdf_to_citekey_map entries) f = none) :
    resolve_citekey (create_pdf_to_citekey_map entries) f = splitext_stem f ∧
      Event.warnedFallback f ∈ (run_program env).1 ∧
      Event.finished ∈ (run_program env).1 := by
  have hres : resolve_citekey (create_pdf_to_citekey_map entries) f = splitext_stem f := by
    simp [resolve_citekey, habs]
  refine ⟨hres, ?_, ?_⟩
  · refine mem_trace_of_mem_docEvents hkey hmp hbib hls hf ?_
    have hk : Event.warnedFallback f ∈ keyEvents (create_pdf_to_citekey_map entries) f := by
      simp [keyEvents, hres]
    simp only [docEvents]
    exact List.mem_cons_of_mem _ (List.mem_append_left _ hk)
  · rw [run_program_key_ok hkey]
    have h1 : Event.finished ∈ main_events env := by
      rw [main_events_loop hmp hbib hls (List.ne_nil_of_mem hf)]; simp
    exact List.mem_cons_of_mem _ h1

theorem citekey_fallback_stem_witness :
    resolve_citekey (create_pdf_to_citekey_map []) "a.pdf".toList =
        splitext_stem "a.pdf".toList ∧
      Event.warnedFallback "a.pdf".toList ∈ (run_program envFallbackDoc).1 := by
  have h := citekey_fallback_stem envFallbackDoc "prompt".toList [] ["a.pdf".toList]
    "a.pdf".toList (by decide) rfl rfl rfl (by decide) (by decide)
  exact ⟨h.1, h.2.1⟩

/-- C10: when the index does contain the document's basename but maps it to a
citation key equal to the document's filename stem, the resolved key equals
the stem and the script still emits the could-not-find-citekey fallback
warning for that document (its key report is exactly the warning), because
the fallback is detected by comparing the resolved key to the stem rather
than by testing index membership. -/
theorem fallback_warning_on_stem_collision (env : Env) (mp : List Char)
    (entries : List BibEntry) (listing : List (List Char)) (f : List Char)
    (hkey : isFalsy env.gemini_api_key = false)
    (hmp : env.master_prompt_file = some mp)
    (hbib : env.bibtex_file = some (Except.ok entries))
    (hls : env.papers_listing = some listing)
    (hf : f ∈ listing.filter isEligible)
    (hcol : dictGet? (create_pdf_to_citekey_map entries) f = some (splitext_stem f)) :
    resolve_citekey (create_pdf_to_citekey_map entries) f = splitext_stem f ∧
      keyEvents (create_pdf_to_citekey_map entries) f = [Event.warnedFallback f] ∧
      Event.warnedFallback f ∈ (run_program env).1 := by
  have hres : resolve_citekey (create_pdf_to_citekey_map entries) f = splitext_stem f := by
    simp [resolve_citekey, hcol]
  have hke : keyEvents (create_pdf_to_citekey_map entries) f = [Event.warnedFallback f] := by
    simp [keyEvents, hres]
  refine ⟨hres, hke, ?_⟩
  refine mem_trace_of_mem_docEvents hkey hmp hbib hls hf ?_
  simp only [docEvents]
  exact List.mem_cons_of_mem _ (List.mem_append_left _ (by rw [hke]; simp))

theorem fallback_warning_on_stem_collision_witness :
    resolve_citekey
        (create_pdf_to_citekey_map [⟨some "a".toList, some ":d/a.pdf:PDF".toList⟩])
        "a.pdf".toList = splitext_stem "a.pdf".toList ∧
      Event.warnedFallback "a.pdf".toList ∈ (run_program envStemCollision).1 := by
  have h := fallback_warning_on_stem_collision envStemCollision "prompt".toList
    [⟨some "a".toList, some ":d/a.pdf:PDF".toList⟩] ["a.pdf".toList] "a.pdf".toList
    (by decide) rfl rfl rfl (by decide) (by decide)
  exact ⟨h.1, h.2.2⟩

/-- C8: every generation request issued for a document whose upload succeeded
carries the ordered payload [prompt text, optional shared attachment handle,
this document's handle]; and when the auxiliary attachment does not exist
locally, every generation request of the run carries only the prompt and the
document, and no attachment deletion happens at the end of the run. -/
theorem generation_payload_order (env : Env) (mp : List Char) (entries : List BibEntry)
    (listing : List (List Char))
    (hkey : isFalsy env.gemini_api_key = false)
    (hmp : env.master_prompt_file = some mp)
    (hbib : env.bibtex_file = some (Except.ok entries))
    (hls : env.papers_listing = some listing) :
    (∀ f ∈ listing.filter isEligible, ∀ hh, (env.docBeh f).uploadRes = Except.ok hh →
      Event.generated (ReqPart.text mp :: (attachPartList (attachPhase env).2 ++
        [ReqPart.fileRef hh])) ∈ (run_program env).1) ∧
    (env.siunitx_exists = false →
      (∀ parts, Event.generated parts ∈ (run_program env).1 →
        ∃ hh, parts = [ReqPart.text mp, ReqPart.fileRef hh]) ∧
      (run_program env).1.filter isAttachDelete = []) := by
  constructor
  · intro f hf hh hu
    refine mem_trace_of_mem_docEvents hkey hmp hbib hls hf ?_
    simp [docEvents, hu, payloadParts]
  · intro hs
    have hat : (attachPhase env).2 = none := attachPhase_snd_of_not_exists hs
    constructor
    · intro parts hmem
      by_cases hfe : listing.filter isEligible = []
      · exfalso
        rcases nofiles_trace_mem hkey hmp hbib hls hfe hmem with h | h | h | h | h | h | h
        · cases h
        · cases h
        · cases h
        · cases h
        · cases h
        · rcases attachPhase_events_cases h with ⟨x, hx⟩ | ⟨x, hx⟩ | hx <;> cases hx
        · cases h
      · rcases loop_trace_mem hkey hmp hbib hls hfe hmem with
          h | h | h | h | h | h | h | ⟨f, hf, hd⟩ | h | h
        · cases h
        · cases h
        · cases h
        · cases h
        · cases h
        · rcases attachPhase_events_cases h with ⟨x, hx⟩ | ⟨x, hx⟩ | hx <;> cases hx
        · cases h
        · obtain ⟨hh, hu, hp⟩ := generated_mem_docEvents_inv hd
          rw [hat] at hp
          refine ⟨hh, ?_⟩
          simpa [payloadParts, attachPartList] using hp
        · rw [hat] at h; cases h
        · cases h
    · refine List.filter_eq_nil_iff.mpr fun e he => ?_
      by_cases hfe : listing.filter isEligible = []
      · rcases nofiles_trace_mem hkey hmp hbib hls hfe he with h | h | h | h | h | h | h
        · subst h; simp [isAttachDelete]
        · subst h; simp [isAttachDelete]
        · subst h; simp [isAttachDelete]
        · subst h; simp [isAttachDelete]
        · subst h; simp [isAttachDelete]
        · simp [attachPhase_no_attachDelete h]
        · subst h; simp [isAttachDelete]
      · rcases loop_trace_mem hkey hmp hbib hls hfe he with
          h | h | h | h | h | h | h | ⟨f, hf, hd⟩ | h | h
        · subst h; simp [isAttachDelete]
        · subst h; simp [isAttachDelete]
        · subst h; simp [isAttachDelete]
        · subst h; simp [isAttachDelete]
        · subst h; simp [isAttachDelete]
        · simp [attachPhase_no_attachDelete h]
        · subst h; simp [isAttachDelete]
        · simp [docEvents_no_attachDelete hd]
        · rw [hat] at h; cases h
        · subst h; simp [isAttachDelete]

theorem generation_payload_order_witness :
    Event.generated [ReqPart.text "prompt".toList, ReqPart.fileRef docHandle] ∈
        (run_program envNoAttach).1 ∧
      (run_program envNoAttach).1.filter isAttachDelete = [] := by
  have h := generation_payload_order envNoAttach "prompt".toList [] ["a.pdf".toList]
    (by decide) rfl rfl rfl
  constructor
  · have h1 := h.1 "a.pdf".toList (by decide) docHandle rfl
    have h2 : (ReqPart.text "prompt".toList ::
        (attachPartList (attachPhase envNoAttach).2 ++ [ReqPart.fileRef docHandle])) =
        [ReqPart.text "prompt".toList, ReqPart.fileRef docHandle] := by decide
    exact h2 ▸ h1
  · exact (h.2 rfl).2

/-- C9: when the scan of the input directory yields no eligible file, the run
ends without error (exit status 0, with the no-new-papers notice), zero
documents are processed, and nothing is ever appended to the output sink. -/
theorem empty_scan_no_writes (env : Env) (mp : List Char) (entries : List BibEntry)
    (listing : List (List Char))
    (hkey : isFalsy env.gemini_api_key = false)
    (hmp : env.master_prompt_file = some mp)
    (hbib : env.bibtex_file = some (Except.ok entries))
    (hls : env.papers_listing = some listing)
    (hfe : listing.filter isEligible = []) :
    (run_program env).2 = 0 ∧ Event.noNewPapers ∈ (run_program env).1 ∧
      (run_program env).1.filter isAppendSummary = [] ∧
      (run_program env).1.filter isProcStart = [] := by
  refine ⟨by rw [run_program_key_ok hkey], ?_, ?_, ?_⟩
  · rw [run_program_key_ok hkey]
    have h1 : Event.noNewPapers ∈ main_events env := by
      rw [main_events_nofiles hmp hbib hls hfe]; simp
    exact List.mem_cons_of_mem _ h1
  · refine List.filter_eq_nil_iff.mpr fun e he => ?_
    rcases nofiles_trace_mem hkey hmp hbib hls hfe he with h | h | h | h | h | h | h
    · subst h; simp [isAppendSummary]
    · subst h; simp [isAppendSummary]
    · subst h; simp [isAppendSummary]
    · subst h; simp [isAppendSummary]
    · subst h; simp [isAppendSummary]
    · simp [attachPhase_no_appendSummary h]
    · subst h; simp [isAppendSummary]
  · refine List.filter_eq_nil_iff.mpr fun e he => ?_
    rcases nofiles_trace_mem hkey hmp hbib hls hfe he with h | h | h | h | h | h | h
    · subst h; simp [isProcStart]
    · subst h; simp [isProcStart]
    · subst h; simp [isProcStart]
    · subst h; simp [isProcStart]
    · subst h; simp [isProcStart]
    · simp [attachPhase_no_procStart h]
    · subst h; simp [isProcStart]

theorem empty_scan_no_writes_witness :
    (run_program envNoFiles).2 = 0 ∧
      Event.noNewPapers ∈ (run_program envNoFiles).1 ∧
      (run_program envNoFiles).1.filter isAppendSummary = [] := by
  have h := empty_scan_no_writes envNoFiles "prompt".toList [] ["readme.md".toList]
    (by decide) rfl rfl rfl (by decide)
  exact ⟨h.1, h.2.1, h.2.2.1⟩

end Pipeline

